import Mathlib

/-!
Verification of `imagenet-classification/create_cache.py`.

This file shallowly embeds the cache-creation pipeline of the repository:
the geometric image normalizer (`_resize_image`), the stride thinning loop,
the archive-member classification loop of `main`, the train/validation
sample-index construction and their lazy loaders, and the shuffle-flag
handoff to the external cache store.

Modelling conventions:
* machine integers are `Nat` / `Int`; Python floor division `//` on
  non-negative values is `Nat` division;
* the float comparisons `float(h)/w > float(height)/width` and the float
  expression `int(float(w)/width*height)` are modelled exactly as rational
  comparison by cross-multiplication (`h * width > height * w`) and as the
  rational floor `w * height / width`; for image dimensions far below 2^50
  the IEEE-double computations of the source agree with these exact values;
* images are dimension pairs together with total pixel functions
  (row, column, channel) -> byte value; only in-range indices are
  constrained by theorems;
* the external `scipy.misc.imresize` resampler and the archive contents are
  opaque parameters (external collaborators of the core);
* fallible paths (`exit(-1)` branches of the source) are `Except` values.
-/

namespace CreateCache

/-- A decoded image in row-major layout: `pix row col channel`. -/
structure Img where
  h : Nat
  w : Nat
  pix : Nat → Nat → Nat → Nat

/-- A channel-first tensor: `pix channel row col`. -/
structure CImg where
  h : Nat
  w : Nat
  pix : Nat → Nat → Nat → Nat

/-- Channel-first conversion, `np.array(im).transpose((2, 0, 1))`. -/
def chanFirst (im : Img) : CImg :=
  ⟨im.h, im.w, fun c i j => im.pix i j c⟩

/-- The crop-or-pad stage of `_resize_image` (the body of the
`if w != width or h != height` branch before `imresize`), translated line by
line from the source.  `padding = false` is trimming mode. -/
def cropPadStage (im : Img) (width height : Nat) (padding : Bool) : Img :=
  if ¬ padding then
    -- trimming mode
    if im.h * width > height * im.w then
      -- target_h = int(float(w) / width * height)
      let target_h := im.w * height / width
      -- im = im[(h - target_h) // 2 : h - (h - target_h) // 2, ::]
      let a := (im.h - target_h) / 2
      ⟨im.h - a - a, im.w, fun i j c => im.pix (i + a) j c⟩
    else
      -- target_w = int(float(h) / height * width)
      let target_w := im.h * width / height
      let a := (im.w - target_w) / 2
      ⟨im.h, im.w - a - a, fun i j c => im.pix i (j + a) c⟩
  else
    -- padding mode
    if im.h * width < height * im.w then
      -- target_h = int(float(height) / width * w)
      let target_h := height * im.w / width
      -- pad = ((target_h - h) // 2, target_h - (target_h - h) // 2 - h)
      let top := (target_h - im.h) / 2
      let bot := target_h - (target_h - im.h) / 2 - im.h
      ⟨im.h + top + bot, im.w,
        fun i j c => if top ≤ i ∧ i < top + im.h then im.pix (i - top) j c else 0⟩
    else
      -- target_w = int(float(width) / height * h)
      let target_w := im.h * width / height
      let left := (target_w - im.w) / 2
      let right := target_w - (target_w - im.w) / 2 - im.w
      ⟨im.h, im.w + left + right,
        fun i j c => if left ≤ j ∧ j < left + im.w then im.pix i (j - left) c else 0⟩

/-- The function `_resize_image(im, width, height, padding)`.  `resample` is the opaque
external `scipy.misc.imresize(arr, (height, width), interp=lanczos)`
collaborator, taking the target height and width and the cropped/padded
image. -/
def resize_image (resample : Nat → Nat → Img → Img)
    (im : Img) (width height : Nat) (padding : Bool) : CImg :=
  if im.w ≠ width ∨ im.h ≠ height then
    chanFirst (resample height width (cropPadStage im width height padding))
  else
    chanFirst im

/-- The thinning loop
`for i, image in enumerate(images0): if i % thinning == 0: images.append(image)`
with the running index made explicit. -/
def thinAux (k : Nat) : Nat → List α → List α
  | _, [] => []
  | i, x :: xs => if i % k = 0 then x :: thinAux k (i + 1) xs else thinAux k (i + 1) xs

/-- Thinning of a pre-thin sequence with stride `k`. -/
def thin (k : Nat) (xs : List α) : List α := thinAux k 0 xs

/-- An identity resampler, used as a concrete instance of the opaque
external interpolation collaborator in witnesses. -/
def rsId : Nat → Nat → Img → Img := fun _ _ x => x

/-- A concrete 2x2 image with distinct pixel values. -/
def img22 : Img := ⟨2, 2, fun i j c => i + 10 * j + 100 * c⟩

/-- A concrete 4x3 constant image (relatively taller than a 2x2 target). -/
def img43 : Img := ⟨4, 3, fun _ _ _ => 0⟩

/-- A concrete 2x4 image (relatively wider than a 2x2 target). -/
def img24 : Img := ⟨2, 4, fun i j c => 1 + i + 10 * j + 100 * c⟩

/-- Decimal digit test, the character class `[0-9]`. -/
def isDigitCh (c : Char) : Bool := '0' ≤ c && c ≤ '9'

/-- Whether the first list is an initial segment of the second. -/
def strHasPre : List Char → List Char → Bool
  | [], _ => true
  | _ :: _, [] => false
  | a :: ps, b :: ss => a == b && strHasPre ps ss

/-- The test `re.match(r'n[0-9]{8}\.tar', name)`: `re.match` anchors at the
start of the string only, so trailing characters after `.tar` are allowed. -/
def matchTrainName (s : String) : Bool :=
  match s.data with
  | [] => false
  | c :: rest =>
      c == 'n' && (rest.take 8).length == 8 && (rest.take 8).all isDigitCh &&
        strHasPre ".tar".data (rest.drop 8)

/-- The test `re.match(r'ILSVRC2012_val_[0-9]{8}\.JPEG', name)`, anchored at
the start of the string only. -/
def matchValName (s : String) : Bool :=
  strHasPre "ILSVRC2012_val_".data s.data &&
    ((s.data.drop 15).take 8).length == 8 &&
    ((s.data.drop 15).take 8).all isDigitCh &&
    strHasPre ".JPEG".data ((s.data.drop 15).drop 8)

/-- The test `re.match(r'{}_[0-9]+\.JPEG'.format(category), mname)` for a
category string free of regex metacharacters (the shape produced by valid
category members): the category, an underscore, one or more digits, then
`.JPEG`, anchored at the start of `mname` only.  Since `.` is not a digit,
the greedy `[0-9]+` match is unambiguous. -/
def matchInnerMember (category mname : String) : Bool :=
  let r := mname.data.drop (category.data.length + 1)
  strHasPre (category.data ++ ['_']) mname.data &&
    !(r.takeWhile isDigitCh).isEmpty &&
    strHasPre ".JPEG".data (r.dropWhile isDigitCh)

/-- The base-name part of `os.path.splitext(name)`: everything before the
last dot, provided some non-dot character precedes that dot; otherwise the
whole name. -/
def splitextBase (s : String) : String :=
  let cs := s.data
  match ((List.range cs.length).filter
      (fun i => cs.getD i ' ' == '.' && (cs.take i).any (fun c => c != '.'))).getLast? with
  | some i => String.mk (cs.take i)
  | none => s

/-- The fatal classification errors of `main` (each an `exit(-1)` in the
source, with the printed message abstracted to its kind and payload). -/
inductive ClassErr where
  | invalidMember (name : String)
  | mixedContent (name : String)
  | duplicateRole (role : String)
deriving DecidableEq

/-- Whether an `Except` value is a success. -/
def isOkE : Except ε α → Bool
  | .ok _ => true
  | .error _ => false

/-- The member-name loop of `main` (lines 202-216 of the source) carrying the
`is_train` / `is_val` flags: a train-pattern member inside an archive already
marked validation (or conversely) is `MixedArchiveContent`; a member matching
neither pattern is `InvalidArchiveMember`. -/
def processNames (isT isV : Bool) : List String → Except ClassErr (Bool × Bool)
  | [] => .ok (isT, isV)
  | n :: ns =>
      if matchTrainName n then
        if isV then .error (.mixedContent n)
        else processNames true isV ns
      else if matchValName n then
        if isT then .error (.mixedContent n)
        else processNames isT true ns
      else .error (.invalidMember n)

/-- Classification of a single archive's member-name listing. -/
def classifyOne (ns : List String) : Except ClassErr (Bool × Bool) :=
  processNames false false ns

/-- Slot filling after an archive classifies (`if is_train:` / `if is_val:`
blocks of `main`): a second archive of the same role is a fatal
`DuplicateArchiveRole`. -/
def addRole (slot : Option (List String)) (ns : List String) (flag : Bool)
    (role : String) : Except ClassErr (Option (List String)) :=
  if flag then
    match slot with
    | none => .ok (some ns)
    | some _ => .error (.duplicateRole role)
  else .ok slot

/-- The archive loop of `main`: classify each supplied archive in turn and
fill the train/validation slots. -/
def classifyArchives (st sv : Option (List String)) :
    List (List String) → Except ClassErr (Option (List String) × Option (List String))
  | [] => .ok (st, sv)
  | ns :: rest =>
      match classifyOne ns with
      | .error e => .error e
      | .ok (t, v) =>
          match addRole st ns t "train" with
          | .error e => .error e
          | .ok st' =>
              match addRole sv ns v "val" with
              | .error e => .error e
              | .ok sv' => classifyArchives st' sv' rest

/-- Whether an archive listing classifies successfully with the train flag. -/
def archIsTrain (ns : List String) : Bool :=
  match classifyOne ns with
  | .ok (t, _) => t
  | .error _ => false

/-- Whether an archive listing classifies successfully with the val flag. -/
def archIsVal (ns : List String) : Bool :=
  match classifyOne ns with
  | .ok (_, v) => v
  | .error _ => false

/-- The recognized command-line options that reach the cache builders. -/
structure Args where
  width : Nat
  height : Nat
  mode : String
  shuffle : Option String
  thinning : Nat

/-- Python truthiness of the optional `-S, --shuffle` string: `None` is falsy,
any non-empty string (including `'False'`) is truthy. -/
def pyTruthy : Option String → Bool
  | none => false
  | some s => s != ""

/-- The values handed to the external cache machinery: the sample count and
boolean shuffle flag given to `SimpleDataSource(_load_func, len(images),
shuffle, rng=None)`, and the destination directory and raw `args.shuffle`
value given to `DataSourceWithFileCache(source, cache_dir=output,
shuffle=args.shuffle)`, together with the per-index loader closure. -/
structure CacheHandoff where
  num : Nat
  sourceShuffle : Bool
  cacheShuffle : Option String
  outdir : String
  load : Nat → Option (CImg × Int)

/-- Lexicographic comparison of character lists by code point, the order
Python's `str` comparison (and hence `sorted`) uses. -/
def ltChars : List Char → List Char → Bool
  | _, [] => false
  | [], _ :: _ => true
  | a :: as, b :: bs =>
      if a.toNat < b.toNat then true
      else if b.toNat < a.toNat then false
      else ltChars as bs

/-- Lexicographic order on names by code point. -/
def strLtB (s t : String) : Bool := ltChars s.data t.data

/-- Insertion of a name into a sorted list, byte-wise lexicographic order. -/
def insertName (s : String) : List String → List String
  | [] => [s]
  | t :: ts => if strLtB t s then t :: insertName s ts else s :: t :: ts

/-- The call `sorted(names)`: stable lexicographic sort of the validation
member names. -/
def sortNames (l : List String) : List String := l.foldr insertName []

/-- The function `_create_validation_cache(archive, output, names,
ground_truth, args)`: sort the names, thin the name list, and hand off a
loader that at `index` reads `ground_truth[index]` (the un-thinned list) and
`images[index]` (the thinned sorted names), returning the normalized image
and the label `y - 1`.  `content` models `imread(archive.extractfile(name))`.
A Python `IndexError` in the loader is modelled as `none`. -/
def create_validation_cache (resample : Nat → Nat → Img → Img)
    (content : String → Img) (names : List String) (ground_truth : List Int)
    (output : String) (a : Args) : CacheHandoff :=
  let images := thin a.thinning (sortNames names)
  { num := images.length
    sourceShuffle := if a.shuffle == some "True" then true else false
    cacheShuffle := a.shuffle
    outdir := output
    load := fun index =>
      match ground_truth[index]?, images[index]? with
      | some y, some name =>
          some (resize_image resample (content name) a.width a.height
                  (a.mode == "padding"), y - 1)
      | _, _ => none }

/-- The validation branch of `main` after classification and devkit reading
(source lines 308-316): it unconditionally builds the validation cache.  The
source contains no comparison of `len(validation_ground_truth)` against
`len(names)` and no abort in this path, so the `Except` never carries an
error. -/
def runValidationPhase (resample : Nat → Nat → Img → Img)
    (content : String → Img) (names : List String) (ground_truth : List Int)
    (output : String) (a : Args) : Except ClassErr CacheHandoff :=
  .ok (create_validation_cache resample content names ground_truth output a)

/-- The inner-member loop of `_create_train_cache` for one category archive:
every inner name must match the category's image pattern; a mismatch is fatal
(`exit(-1)`, carried here as the offending name). -/
def innerMembers (category nm : String) (sid : Int) :
    List String → Except String (List (Int × String × String))
  | [] => .ok []
  | m :: ms =>
      if matchInnerMember category m then
        match innerMembers category nm sid ms with
        | .ok l => .ok ((sid, nm, m) :: l)
        | .error e => .error e
      else .error m

/-- The outer loop of `_create_train_cache`: for each category member `name`
(in listing order) with `category = os.path.splitext(name)[0]`, collect one
sample `(synsets_id[category], name, mname)` per inner member, in encounter
order. -/
def collectTrainImages (synsets_id : String → Int)
    (inner : String → List String) :
    List String → Except String (List (Int × String × String))
  | [] => .ok []
  | nm :: rest =>
      match innerMembers (splitextBase nm) nm (synsets_id (splitextBase nm)) (inner nm) with
      | .ok l =>
          match collectTrainImages synsets_id inner rest with
          | .ok l2 => .ok (l ++ l2)
          | .error e => .error e
      | .error e => .error e

/-- The function `_create_train_cache(archive, output, names, synsets_id,
args)`: collect the pre-thin sample sequence, thin it, and hand off a loader
returning the normalized image and the label `y - 1` for the stored synset id
`y`.  `content` models `imread(marchive.extractfile(mname))` for category
member `name` and inner member `mname`. -/
def create_train_cache (resample : Nat → Nat → Img → Img)
    (content : String → String → Img) (synsets_id : String → Int)
    (inner : String → List String) (names : List String)
    (output : String) (a : Args) : Except String CacheHandoff :=
  match collectTrainImages synsets_id inner names with
  | .error e => .error e
  | .ok images0 =>
      let images := thin a.thinning images0
      .ok { num := images.length
            sourceShuffle := if a.shuffle == some "False" then false else true
            cacheShuffle := a.shuffle
            outdir := output
            load := fun index =>
              (images[index]?).map (fun s =>
                (resize_image resample (content s.2.1 s.2.2) a.width a.height
                  (a.mode == "padding"), s.1 - 1)) }

/-- Default argument values: no `-S, --shuffle` option, stride 1. -/
def argsDefault : Args := ⟨320, 320, "trimming", none, 1⟩

/-- Arguments with `-S False`. -/
def argsShufFalse : Args := ⟨320, 320, "trimming", some "False", 1⟩

/-- Arguments with thinning stride 2. -/
def argsThin2 : Args := ⟨320, 320, "trimming", none, 2⟩

/-- Concrete unsorted validation member names. -/
def valNamesC1 : List String :=
  ["ILSVRC2012_val_00000003.JPEG", "ILSVRC2012_val_00000001.JPEG",
   "ILSVRC2012_val_00000002.JPEG"]

/-- Concrete ground-truth list for the three names of `valNamesC1`. -/
def gtC1 : List Int := [5, 12, 99]

theorem thinAux_eq_filter_enumFrom (k : Nat) (xs : List α) :
    ∀ i, thinAux k i xs = ((xs.enumFrom i).filter (fun p => p.1 % k == 0)).map Prod.snd := by
  induction xs with
  | nil => intro i; simp [thinAux]
  | cons x xs ih =>
      intro i
      simp only [thinAux, List.enumFrom_cons, List.filter_cons]
      by_cases h : i % k = 0
      · simp [h, ih]
      · simp [h, ih]

theorem thin_eq_filter_enum (k : Nat) (xs : List α) :
    thin k xs = ((xs.enum.filter (fun p => p.1 % k == 0)).map Prod.snd) := by
  simpa [List.enum] using thinAux_eq_filter_enumFrom k xs 0

/-- C6 -- Thinning: for every pre-thin sequence and every stride `k ≥ 1`, the
kept samples are exactly those whose pre-thin position is a multiple of `k`
(the set `{0, k, 2k, …} ∩ [0, n)`), in their original relative order, and
`k = 1` keeps the whole sequence. -/
theorem thinning_keeps_exactly_multiples (k : Nat) (xs : List α) (hk : 1 ≤ k) :
    thin k xs = ((xs.enum.filter (fun p => decide (k ∣ p.1))).map Prod.snd) ∧
      (k = 1 → thin k xs = xs) := by
  constructor
  · rw [thin_eq_filter_enum]
    congr 1
    apply List.filter_congr
    intro p _
    rw [Bool.eq_iff_iff]
    simp [Nat.dvd_iff_mod_eq_zero]
  · rintro rfl
    rw [thin_eq_filter_enum]
    have : ∀ p ∈ xs.enum, (p.1 % 1 == 0) = true := by
      intro p _; simp [Nat.mod_one]
    rw [List.filter_eq_self.mpr this, List.enum_map_snd]

/-- Witness for C6 at `n = 5`, `k = 2`: the kept samples are those at
positions 0, 2 and 4. -/
theorem thinning_keeps_exactly_multiples_witness :
    thin 2 [10, 20, 30, 40, 50] =
      (([(0, 10), (1, 20), (2, 30), (3, 40), (4, 50)].filter
        (fun p => decide (2 ∣ p.1))).map Prod.snd) ∧
      thin 2 [10, 20, 30, 40, 50] = [10, 30, 50] := by
  have h := thinning_keeps_exactly_multiples 2 [10, 20, 30, 40, 50] (by decide)
  exact ⟨h.1, by decide⟩

/-- C9 -- Identity on already-sized images: when the input already has shape
(height, width, 3), `_resize_image` performs no cropping, padding or
resampling (for any resampler) and returns the same pixel values, only
converted to channel-first layout. -/
theorem resize_identity_on_sized (resample : Nat → Nat → Img → Img)
    (im : Img) (width height : Nat) (padding : Bool)
    (hh : im.h = height) (hw : im.w = width) :
    (resize_image resample im width height padding).h = im.h ∧
    (resize_image resample im width height padding).w = im.w ∧
    ∀ c i j, (resize_image resample im width height padding).pix c i j = im.pix i j c := by
  simp [resize_image, hh, hw, chanFirst]

/-- Witness for C9: a concrete 2x2 image with 2x2 target passes through
unchanged, channel-first. -/
theorem resize_identity_on_sized_witness :
    (resize_image rsId img22 2 2 false).pix 2 1 0 = img22.pix 1 0 2 ∧
    (resize_image rsId img22 2 2 false).h = 2 := by
  have h := resize_identity_on_sized rsId img22 2 2 false rfl rfl
  exact ⟨h.2.2 2 1 0, h.1.trans rfl⟩

/-- C5 -- Pad mode exact padding: when `h/w < H/W` the normalizer's pad stage
computes `target_h = floor(H/W * w)`, pads `floor((target_h - h)/2)` zero rows
on top and the remainder `target_h - h - floor((target_h - h)/2)` on the
bottom, leaving the original pixels unshifted relative to the top offset and
the width (and channels) untouched; symmetrically for columns (remainder on
the right) when `h/w ≥ H/W`. -/
theorem pad_mode_exact (im : Img) (width height : Nat)
    (hW : 0 < width) (hH : 0 < height) :
    (im.h * width < height * im.w →
      (cropPadStage im width height true).h =
        im.h + (height * im.w / width - im.h) / 2 +
          (height * im.w / width - im.h - (height * im.w / width - im.h) / 2) ∧
      (cropPadStage im width height true).h = height * im.w / width ∧
      (cropPadStage im width height true).w = im.w ∧
      ∀ i j c, (cropPadStage im width height true).pix i j c =
        if (height * im.w / width - im.h) / 2 ≤ i ∧
            i < (height * im.w / width - im.h) / 2 + im.h then
          im.pix (i - (height * im.w / width - im.h) / 2) j c
        else 0) ∧
    (height * im.w ≤ im.h * width →
      (cropPadStage im width height true).w =
        im.w + (im.h * width / height - im.w) / 2 +
          (im.h * width / height - im.w - (im.h * width / height - im.w) / 2) ∧
      (cropPadStage im width height true).h = im.h ∧
      ∀ i j c, (cropPadStage im width height true).pix i j c =
        if (im.h * width / height - im.w) / 2 ≤ j ∧
            j < (im.h * width / height - im.w) / 2 + im.w then
          im.pix i (j - (im.h * width / height - im.w) / 2) c
        else 0) := by
  constructor
  · intro hc
    have ht : im.h ≤ height * im.w / width :=
      (Nat.le_div_iff_mul_le hW).mpr (Nat.le_of_lt hc)
    have hred : cropPadStage im width height true =
        ⟨im.h + (height * im.w / width - im.h) / 2 +
            (height * im.w / width - (height * im.w / width - im.h) / 2 - im.h), im.w,
          fun i j c =>
            if (height * im.w / width - im.h) / 2 ≤ i ∧
                i < (height * im.w / width - im.h) / 2 + im.h then
              im.pix (i - (height * im.w / width - im.h) / 2) j c
            else 0⟩ := by
      simp only [cropPadStage]
      rw [if_neg (by simp), if_pos hc]
    refine ⟨?_, ?_, ?_, fun i j c => ?_⟩
    · rw [hred]; dsimp only
      generalize height * im.w / width = t at ht ⊢
      omega
    · rw [hred]; dsimp only
      generalize height * im.w / width = t at ht ⊢
      omega
    · rw [hred]
    · rw [hred]
  · intro hc
    have hnc : ¬ (im.h * width < height * im.w) := by omega
    have ht : im.w ≤ im.h * width / height := by
      rw [Nat.le_div_iff_mul_le hH]
      calc im.w * height = height * im.w := Nat.mul_comm _ _
        _ ≤ im.h * width := hc
    have hred : cropPadStage im width height true =
        ⟨im.h, im.w + (im.h * width / height - im.w) / 2 +
            (im.h * width / height - (im.h * width / height - im.w) / 2 - im.w),
          fun i j c =>
            if (im.h * width / height - im.w) / 2 ≤ j ∧
                j < (im.h * width / height - im.w) / 2 + im.w then
              im.pix i (j - (im.h * width / height - im.w) / 2) c
            else 0⟩ := by
      simp only [cropPadStage]
      rw [if_neg (by simp), if_neg hnc]
    refine ⟨?_, ?_, fun i j c => ?_⟩
    · rw [hred]; dsimp only
      generalize im.h * width / height = t at ht ⊢
      omega
    · rw [hred]
    · rw [hred]

/-- Witness for C5: a 2x4 image against a 2x2 target (`2/4 < 2/2`) is padded
to `target_h = 4` rows, one zero row on top and one on the bottom, with
original row 0 appearing at row 1. -/
theorem pad_mode_exact_witness :
    (0 < 2 ∧ img24.h * 2 < 2 * img24.w) ∧
    (cropPadStage img24 2 2 true).h = 4 ∧
    (cropPadStage img24 2 2 true).pix 0 0 0 = 0 ∧
    (cropPadStage img24 2 2 true).pix 1 0 0 = img24.pix 0 0 0 := by
  have h := (pad_mode_exact img24 2 2 (by decide) (by decide)).1 (by decide)
  refine ⟨⟨by decide, by decide⟩, h.2.1.trans (by decide), ?_, ?_⟩
  · rw [h.2.2.2 0 0 0]; decide
  · rw [h.2.2.2 1 0 0]; decide

/-- Counterexample to C2 as stated: for the 4x3 image against a 2x2 target
(`4/3 > 2/2`, `target_h = 3`, odd excess), the trim stage keeps 4 rows, not
exactly `target_h = 3`. -/
theorem trim_mode_exact_counterexample :
    img43.h * 2 > 2 * img43.w ∧
    (cropPadStage img43 2 2 false).h ≠ img43.w * 2 / 2 := by
  decide

/-- C2 (amended) -- Trim mode: when `h/w > H/W` the trim stage computes
`target_h = floor(w/W * H)` and drops `floor((h - target_h)/2)` rows from
each of the top and the bottom, so `target_h + ((h - target_h) mod 2)` rows
remain: exactly `target_h` when the excess is even, and `target_h + 1` (the
odd leftover row is kept, not removed) when the excess is odd. The kept rows
are the centered region shifted by the top drop; symmetrically for columns
when `h/w ≤ H/W`. -/
theorem trim_mode_amended (im : Img) (width height : Nat)
    (hW : 0 < width) (hH : 0 < height) :
    (im.h * width > height * im.w →
      (cropPadStage im width height false).h =
        im.h - (im.h - im.w * height / width) / 2 - (im.h - im.w * height / width) / 2 ∧
      (cropPadStage im width height false).h =
        im.w * height / width + (im.h - im.w * height / width) % 2 ∧
      (cropPadStage im width height false).w = im.w ∧
      ∀ i j c, (cropPadStage im width height false).pix i j c =
        im.pix (i + (im.h - im.w * height / width) / 2) j c) ∧
    (im.h * width ≤ height * im.w →
      (cropPadStage im width height false).w =
        im.w - (im.w - im.h * width / height) / 2 - (im.w - im.h * width / height) / 2 ∧
      (cropPadStage im width height false).w =
        im.h * width / height + (im.w - im.h * width / height) % 2 ∧
      (cropPadStage im width height false).h = im.h ∧
      ∀ i j c, (cropPadStage im width height false).pix i j c =
        im.pix i (j + (im.w - im.h * width / height) / 2) c) := by
  constructor
  · intro hc
    have ht : im.w * height / width < im.h := by
      rw [Nat.div_lt_iff_lt_mul hW]
      calc im.w * height = height * im.w := Nat.mul_comm _ _
        _ < im.h * width := hc
    have hred : cropPadStage im width height false =
        ⟨im.h - (im.h - im.w * height / width) / 2 - (im.h - im.w * height / width) / 2,
          im.w, fun i j c => im.pix (i + (im.h - im.w * height / width) / 2) j c⟩ := by
      simp only [cropPadStage]
      rw [if_pos (by simp), if_pos hc]
    refine ⟨?_, ?_, ?_, fun i j c => ?_⟩
    · rw [hred]
    · rw [hred]; dsimp only
      generalize im.w * height / width = t at ht ⊢
      omega
    · rw [hred]
    · rw [hred]
  · intro hc
    have hnc : ¬ (im.h * width > height * im.w) := by omega
    have ht : im.h * width / height ≤ im.w := by
      calc im.h * width / height ≤ height * im.w / height :=
            Nat.div_le_div_right (by omega)
        _ = im.w := Nat.mul_div_cancel_left _ hH
    have hred : cropPadStage im width height false =
        ⟨im.h, im.w - (im.w - im.h * width / height) / 2 - (im.w - im.h * width / height) / 2,
          fun i j c => im.pix i (j + (im.w - im.h * width / height) / 2) c⟩ := by
      simp only [cropPadStage]
      rw [if_pos (by simp), if_neg hnc]
    refine ⟨?_, ?_, ?_, fun i j c => ?_⟩
    · rw [hred]
    · rw [hred]; dsimp only
      generalize im.h * width / height = t at ht ⊢
      omega
    · rw [hred]
    · rw [hred]

/-- Witness for C2 (amended): the 4x3 image against a 2x2 target has
`target_h = 3`, odd excess 1, top drop 0, and the trim stage keeps
`3 + 1 = 4` rows. -/
theorem trim_mode_amended_witness :
    (0 < 2 ∧ img43.h * 2 > 2 * img43.w) ∧
    (cropPadStage img43 2 2 false).h =
      img43.w * 2 / 2 + (img43.h - img43.w * 2 / 2) % 2 ∧
    (cropPadStage img43 2 2 false).h = 4 := by
  have h := (trim_mode_amended img43 2 2 (by decide) (by decide)).1 (by decide)
  exact ⟨⟨by decide, by decide⟩, h.2.1, h.2.1.trans (by decide)⟩

/-- C10 -- Prefix-only pattern matching: `re.match` anchors only at the start
of the member name, so `n01234567.tarball` is accepted by archive
classification (the archive classifies as train without error) and
`n000001_1.JPEGx` is accepted by the inner train-member validation, despite
their trailing extra characters. -/
theorem prefix_only_pattern_matching :
    matchTrainName "n01234567.tarball" = true ∧
    matchInnerMember "n000001" "n000001_1.JPEGx" = true ∧
    classifyOne ["n01234567.tarball"] = .ok (true, false) ∧
    innerMembers "n000001" "n000001.tar" 7 ["n000001_1.JPEGx"] =
      .ok [(7, "n000001.tar", "n000001_1.JPEGx")] := by
  refine ⟨by decide, by decide, rfl, rfl⟩

/-- C4 -- Shuffle flag at the cache handoff (code bug): the boolean handed to
`SimpleDataSource` follows the documented defaults (train on, validation off,
overridden by the supplied value), but the value handed to
`DataSourceWithFileCache` is the raw `args.shuffle` option: with no option it
is `None` (falsy) for both caches, contradicting the claimed train default of
true, and with `-S False` it is the non-empty string `'False'` (truthy),
contradicting the claimed boolean false. -/
theorem shuffle_handoff_raw_string_bug :
    (∃ h, create_train_cache rsId (fun _ _ => img22) (fun _ => 1) (fun _ => [])
        [] "out" argsDefault = .ok h ∧
      h.sourceShuffle = true ∧ h.cacheShuffle = none ∧
      pyTruthy h.cacheShuffle = false) ∧
    (∃ h, create_train_cache rsId (fun _ _ => img22) (fun _ => 1) (fun _ => [])
        [] "out" argsShufFalse = .ok h ∧
      h.sourceShuffle = false ∧ h.cacheShuffle = some "False" ∧
      pyTruthy h.cacheShuffle = true) ∧
    ((create_validation_cache rsId (fun _ => img22) [] [] "out" argsDefault).sourceShuffle
        = false ∧
      pyTruthy (create_validation_cache rsId (fun _ => img22) [] [] "out"
        argsDefault).cacheShuffle = false) ∧
    ((create_validation_cache rsId (fun _ => img22) [] [] "out" argsShufFalse).sourceShuffle
        = false ∧
      pyTruthy (create_validation_cache rsId (fun _ => img22) [] [] "out"
        argsShufFalse).cacheShuffle = true) := by
  exact ⟨⟨_, rfl, rfl, rfl, rfl⟩, ⟨_, rfl, rfl, rfl, rfl⟩, ⟨rfl, rfl⟩, ⟨rfl, rfl⟩⟩

/-- Counterexample to C3 as stated: with two validation member names but a
one-entry ground-truth list (a length mismatch), the validation phase does
not abort: it hands off a two-sample cache. -/
theorem no_length_check_counterexample :
    (([(5 : Int)] : List Int).length ≠
      (["ILSVRC2012_val_00000001.JPEG", "ILSVRC2012_val_00000002.JPEG"] :
        List String).length) ∧
    isOkE (runValidationPhase rsId (fun _ => img22)
      ["ILSVRC2012_val_00000001.JPEG", "ILSVRC2012_val_00000002.JPEG"]
      [5] "out" argsDefault) = true ∧
    (create_validation_cache rsId (fun _ => img22)
      ["ILSVRC2012_val_00000001.JPEG", "ILSVRC2012_val_00000002.JPEG"]
      [5] "out" argsDefault).num = 2 := by
  refine ⟨by decide, rfl, ?_⟩
  show (thin 1 (sortNames _)).length = 2
  decide

/-- C3 (amended) -- No ground-truth length check: the validation phase always
completes the cache handoff, with the sample count determined solely by the
thinned sorted names and never compared against the ground-truth length; a
shortfall of ground-truth entries surfaces only lazily, as a loader failure
(`IndexError`, modelled `none`) at each affected index. -/
theorem no_length_check_amended (resample : Nat → Nat → Img → Img)
    (content : String → Img) (names : List String) (ground_truth : List Int)
    (output : String) (a : Args) :
    runValidationPhase resample content names ground_truth output a =
      .ok (create_validation_cache resample content names ground_truth output a) ∧
    (create_validation_cache resample content names ground_truth output a).num =
      (thin a.thinning (sortNames names)).length ∧
    ∀ j, ground_truth.length ≤ j →
      (create_validation_cache resample content names ground_truth output a).load j
        = none := by
  refine ⟨rfl, rfl, fun j hj => ?_⟩
  have hg : ground_truth[j]? = none := by
    rw [List.getElem?_eq_none hj]
  show (match ground_truth[j]?, (thin a.thinning (sortNames names))[j]? with
        | some y, some name =>
            some (resize_image resample (content name) a.width a.height
              (a.mode == "padding"), y - 1)
        | _, _ => none) = none
  rw [hg]

/-- Witness for C3 (amended): with one ground-truth entry and two kept names,
the loader at index 1 fails with no label. -/
theorem no_length_check_amended_witness :
    (create_validation_cache rsId (fun _ => img22)
      ["ILSVRC2012_val_00000001.JPEG", "ILSVRC2012_val_00000002.JPEG"]
      [5] "out" argsDefault).load 1 = none :=
  (no_length_check_amended rsId (fun _ => img22)
    ["ILSVRC2012_val_00000001.JPEG", "ILSVRC2012_val_00000002.JPEG"]
    [5] "out" argsDefault).2.2 1 (by decide)

/-- C1 -- Validation label alignment under thinning (code bug): with sorted
names v1 < v2 < v3, ground truth [5, 12, 99] and stride 2, the kept sample at
final index 1 is the sorted name at pre-thin position 2 (v3), but the loader
pairs it with `ground_truth[1] - 1 = 11` (the thinned index into the
un-thinned ground-truth list) instead of `ground_truth[2] - 1 = 98` required
by the name-to-entry alignment the claim states. -/
theorem validation_thinning_label_misalignment :
    (thin 2 (sortNames valNamesC1))[1]? = some "ILSVRC2012_val_00000003.JPEG" ∧
    (sortNames valNamesC1)[2]? = some "ILSVRC2012_val_00000003.JPEG" ∧
    ((create_validation_cache rsId (fun _ => img22) valNamesC1 gtC1 "out"
        argsThin2).load 1).map Prod.snd = some 11 ∧
    ((11 : Int) ≠ 98) := by
  refine ⟨by decide, by decide, rfl, by decide⟩

theorem innerMembers_ok (category nm : String) (sid : Int) (ms : List String)
    (h : ∀ m ∈ ms, matchInnerMember category m = true) :
    innerMembers category nm sid ms = .ok (ms.map (fun m => (sid, nm, m))) := by
  induction ms with
  | nil => rfl
  | cons m ms ih =>
      have hm : matchInnerMember category m = true := h m (by simp)
      have ih' := ih (fun x hx => h x (by simp [hx]))
      simp [innerMembers, hm, ih']

theorem collectTrainImages_ok (synsets_id : String → Int)
    (inner : String → List String) (names : List String)
    (h : ∀ nm ∈ names, ∀ m ∈ inner nm, matchInnerMember (splitextBase nm) m = true) :
    collectTrainImages synsets_id inner names =
      .ok (names.flatMap (fun nm => (inner nm).map
        (fun m => (synsets_id (splitextBase nm), nm, m)))) := by
  induction names with
  | nil => rfl
  | cons nm rest ih =>
      have h1 := innerMembers_ok (splitextBase nm) nm (synsets_id (splitextBase nm))
        (inner nm) (h nm (by simp))
      have ih' := ih (fun x hx => h x (by simp [hx]))
      simp [collectTrainImages, h1, ih']

/-- C8 -- Train protocol labels and order: when every inner member of every
category archive matches the category's image pattern, each inner member
becomes exactly one sample labeled with the resolved synset id of its
category, the pre-thin sequence lists samples in encounter order (outer
category listing order, then inner listing order), and the handed-off loader
returns the stored label minus one at every index of the thinned sequence. -/
theorem train_protocol_labels_and_order (synsets_id : String → Int)
    (inner : String → List String) (names : List String)
    (resample : Nat → Nat → Img → Img) (content : String → String → Img)
    (output : String) (a : Args)
    (h : ∀ nm ∈ names, ∀ m ∈ inner nm, matchInnerMember (splitextBase nm) m = true) :
    collectTrainImages synsets_id inner names =
      .ok (names.flatMap (fun nm => (inner nm).map
        (fun m => (synsets_id (splitextBase nm), nm, m)))) ∧
    ∃ hf, create_train_cache resample content synsets_id inner names output a = .ok hf ∧
      hf.num = (thin a.thinning (names.flatMap (fun nm => (inner nm).map
        (fun m => (synsets_id (splitextBase nm), nm, m))))).length ∧
      ∀ index s,
        (thin a.thinning (names.flatMap (fun nm => (inner nm).map
          (fun m => (synsets_id (splitextBase nm), nm, m)))))[index]? = some s →
        (hf.load index).map Prod.snd = some (s.1 - 1) := by
  have hc := collectTrainImages_ok synsets_id inner names h
  refine ⟨hc, ?_⟩
  refine ⟨⟨(thin a.thinning (names.flatMap (fun nm => (inner nm).map
        (fun m => (synsets_id (splitextBase nm), nm, m))))).length,
      (if a.shuffle == some "False" then false else true), a.shuffle, output,
      fun index => ((thin a.thinning (names.flatMap (fun nm => (inner nm).map
        (fun m => (synsets_id (splitextBase nm), nm, m)))))[index]?).map
        (fun s => (resize_image resample (content s.2.1 s.2.2) a.width a.height
          (a.mode == "padding"), s.1 - 1))⟩, ?_, rfl, ?_⟩
  · simp only [create_train_cache, hc]
  · intro index s hs
    show (((thin a.thinning (names.flatMap (fun nm => (inner nm).map
        (fun m => (synsets_id (splitextBase nm), nm, m)))))[index]?).map
        (fun s => (resize_image resample (content s.2.1 s.2.2) a.width a.height
          (a.mode == "padding"), s.1 - 1))).map Prod.snd = some (s.1 - 1)
    rw [hs]
    rfl

/-- Witness for C8: category `n000001.tar` with inner members
`n000001_1.JPEG`, `n000001_2.JPEG` and synset id 7 yields two samples in
inner-listing order, both of which the loader labels `7 - 1 = 6`. -/
theorem train_protocol_labels_and_order_witness :
    collectTrainImages (fun _ => 7) (fun _ => ["n000001_1.JPEG", "n000001_2.JPEG"])
      ["n000001.tar"] =
      .ok [(7, "n000001.tar", "n000001_1.JPEG"), (7, "n000001.tar", "n000001_2.JPEG")] ∧
    ∃ hf, create_train_cache rsId (fun _ _ => img22) (fun _ => 7)
        (fun _ => ["n000001_1.JPEG", "n000001_2.JPEG"]) ["n000001.tar"]
        "out" argsDefault = .ok hf ∧
      (hf.load 0).map Prod.snd = some 6 ∧ (hf.load 1).map Prod.snd = some 6 := by
  have h := train_protocol_labels_and_order (fun _ => 7)
    (fun _ => ["n000001_1.JPEG", "n000001_2.JPEG"]) ["n000001.tar"]
    rsId (fun _ _ => img22) "out" argsDefault (by decide)
  obtain ⟨h1, hf, h2, _, h4⟩ := h
  refine ⟨h1.trans (by rfl), hf, h2, ?_, ?_⟩
  · have := h4 0 (7, "n000001.tar", "n000001_1.JPEG") (by rfl)
    simpa using this
  · have := h4 1 (7, "n000001.tar", "n000001_2.JPEG") (by rfl)
    simpa using this

theorem matchVal_head (s : List Char)
    (hs : strHasPre "ILSVRC2012_val_".data s = true) : ∃ ss, s = 'I' :: ss := by
  have hpre : "ILSVRC2012_val_".data = 'I' :: "LSVRC2012_val_".data := rfl
  rw [hpre] at hs
  cases s with
  | nil => simp [strHasPre] at hs
  | cons c ss =>
      simp only [strHasPre, Bool.and_eq_true, beq_iff_eq] at hs
      exact ⟨ss, by rw [hs.1]⟩

theorem not_val_of_train (s : String) (ht : matchTrainName s = true) :
    matchValName s = false := by
  cases hds : s.data with
  | nil =>
      simp only [matchTrainName, hds] at ht
      exact Bool.noConfusion ht
  | cons c cs =>
      simp only [matchTrainName, hds, Bool.and_eq_true, beq_iff_eq] at ht
      have hcn : c = 'n' := ht.1.1.1
      cases h2 : matchValName s with
      | false => rfl
      | true =>
          exfalso
          simp only [matchValName, hds, Bool.and_eq_true] at h2
          obtain ⟨ss, hss⟩ := matchVal_head (c :: cs) h2.1.1.1
          injection hss with hcI _
          rw [hcn] at hcI
          exact absurd hcI (by decide)

theorem not_train_of_val (s : String) (hv : matchValName s = true) :
    matchTrainName s = false := by
  cases ht : matchTrainName s with
  | false => rfl
  | true =>
      have := not_val_of_train s ht
      rw [hv] at this
      exact Bool.noConfusion this

theorem processNames_ok_all_valid :
    ∀ (ns : List String) (t v : Bool) (r : Bool × Bool),
      processNames t v ns = .ok r →
      ∀ n ∈ ns, matchTrainName n = true ∨ matchValName n = true := by
  intro ns
  induction ns with
  | nil => intro t v r _ n hn; exact absurd hn (List.not_mem_nil _)
  | cons x rest ih =>
      intro t v r hok n hn
      simp only [processNames] at hok
      by_cases h1 : matchTrainName x = true
      · rw [if_pos h1] at hok
        by_cases hv : v = true
        · rw [if_pos hv] at hok; exact Except.noConfusion hok
        · rw [if_neg hv] at hok
          rcases List.mem_cons.mp hn with h | h
          · subst h; exact Or.inl h1
          · exact ih true v r hok n h
      · rw [if_neg h1] at hok
        by_cases h2 : matchValName x = true
        · rw [if_pos h2] at hok
          by_cases ht : t = true
          · rw [if_pos ht] at hok; exact Except.noConfusion hok
          · rw [if_neg ht] at hok
            rcases List.mem_cons.mp hn with h | h
            · subst h; exact Or.inr h2
            · exact ih t true r hok n h
        · rw [if_neg h2] at hok; exact Except.noConfusion hok

theorem processNames_mixed :
    ∀ (ns : List String) (t v : Bool),
      (∀ n ∈ ns, matchTrainName n = true ∨ matchValName n = true) →
      ¬ (t = true ∧ v = true) →
      (t = true ∨ ∃ n ∈ ns, matchTrainName n = true) →
      (v = true ∨ ∃ n ∈ ns, matchValName n = true) →
      ∃ m, processNames t v ns = .error (.mixedContent m) := by
  intro ns
  induction ns with
  | nil =>
      intro t v _ hnb hT hV
      rcases hT with hT | ⟨n, hn, _⟩
      · rcases hV with hV | ⟨n, hn, _⟩
        · exact absurd ⟨hT, hV⟩ hnb
        · exact absurd hn (List.not_mem_nil _)
      · exact absurd hn (List.not_mem_nil _)
  | cons x rest ih =>
      intro t v hvalid hnb hT hV
      simp only [processNames]
      by_cases h1 : matchTrainName x = true
      · rw [if_pos h1]
        by_cases hv : v = true
        · rw [if_pos hv]; exact ⟨x, rfl⟩
        · rw [if_neg hv]
          have hV' : v = true ∨ ∃ n ∈ rest, matchValName n = true := by
            rcases hV with hVv | ⟨n, hn, hval⟩
            · exact absurd hVv hv
            · rcases List.mem_cons.mp hn with h | h
              · subst h
                rw [not_val_of_train n h1] at hval
                exact Bool.noConfusion hval
              · exact Or.inr ⟨n, h, hval⟩
          exact ih true v (fun n hn => hvalid n (List.mem_cons_of_mem _ hn))
            (fun hp => hv hp.2) (Or.inl rfl) hV'
      · by_cases h2 : matchValName x = true
        · rw [if_neg h1, if_pos h2]
          by_cases ht : t = true
          · rw [if_pos ht]; exact ⟨x, rfl⟩
          · rw [if_neg ht]
            have hT' : t = true ∨ ∃ n ∈ rest, matchTrainName n = true := by
              rcases hT with hTt | ⟨n, hn, htr⟩
              · exact absurd hTt ht
              · rcases List.mem_cons.mp hn with h | h
                · subst h; exact absurd htr h1
                · exact Or.inr ⟨n, h, htr⟩
            exact ih t true (fun n hn => hvalid n (List.mem_cons_of_mem _ hn))
              (fun hp => ht hp.1) hT' (Or.inl rfl)
        · rcases hvalid x (List.mem_cons_self _ _) with h | h
          · exact absurd h h1
          · exact absurd h h2

theorem processNames_invalid :
    ∀ (ns : List String) (t v : Bool) (m : String),
      ¬ ((t = true ∨ ∃ n ∈ ns, matchTrainName n = true) ∧
         (v = true ∨ ∃ n ∈ ns, matchValName n = true)) →
      ns.find? (fun n => !(matchTrainName n || matchValName n)) = some m →
      processNames t v ns = .error (.invalidMember m) := by
  intro ns
  induction ns with
  | nil => intro t v m _ hf; simp [List.find?] at hf
  | cons x rest ih =>
      intro t v m hcond hf
      simp only [processNames]
      by_cases h1 : matchTrainName x = true
      · rw [if_pos h1]
        have hA : t = true ∨ ∃ n ∈ x :: rest, matchTrainName n = true :=
          Or.inr ⟨x, List.mem_cons_self _ _, h1⟩
        have hB : ¬ (v = true ∨ ∃ n ∈ x :: rest, matchValName n = true) :=
          fun hBv => hcond ⟨hA, hBv⟩
        have hv : ¬ v = true := fun hh => hB (Or.inl hh)
        rw [if_neg hv]
        have hpx : (fun n => !(matchTrainName n || matchValName n)) x = false := by
          simp [h1]
        rw [List.find?_cons_of_neg _ (by simp [hpx])] at hf
        refine ih true v m ?_ hf
        rintro ⟨_, hBB⟩
        apply hB
        rcases hBB with hh | ⟨n, hn, hh⟩
        · exact absurd hh hv
        · exact Or.inr ⟨n, List.mem_cons_of_mem _ hn, hh⟩
      · by_cases h2 : matchValName x = true
        · rw [if_neg h1, if_pos h2]
          have hB : v = true ∨ ∃ n ∈ x :: rest, matchValName n = true :=
            Or.inr ⟨x, List.mem_cons_self _ _, h2⟩
          have hA : ¬ (t = true ∨ ∃ n ∈ x :: rest, matchTrainName n = true) :=
            fun hAt => hcond ⟨hAt, hB⟩
          have ht : ¬ t = true := fun hh => hA (Or.inl hh)
          rw [if_neg ht]
          have hpx : (fun n => !(matchTrainName n || matchValName n)) x = false := by
            simp [h2]
          rw [List.find?_cons_of_neg _ (by simp [hpx])] at hf
          refine ih t true m ?_ hf
          rintro ⟨hAA, _⟩
          apply hA
          rcases hAA with hh | ⟨n, hn, hh⟩
          · exact absurd hh ht
          · exact Or.inr ⟨n, List.mem_cons_of_mem _ hn, hh⟩
        · rw [if_neg h1, if_neg h2]
          have h1f : matchTrainName x = false := by
            cases hb : matchTrainName x
            · rfl
            · exact absurd hb h1
          have h2f : matchValName x = false := by
            cases hb : matchValName x
            · rfl
            · exact absurd hb h2
          rw [List.find?_cons_of_pos _ (by simp [h1f, h2f])] at hf
          injection hf with hf
          rw [hf]

theorem classifyArchives_ok_all :
    ∀ (archs : List (List String)) (st sv : Option (List String))
      (r : Option (List String) × Option (List String)),
      classifyArchives st sv archs = .ok r →
      ∀ a ∈ archs, isOkE (classifyOne a) = true := by
  intro archs
  induction archs with
  | nil => intro st sv r _ a ha; exact absurd ha (List.not_mem_nil _)
  | cons x rest ih =>
      intro st sv r hok a ha
      simp only [classifyArchives] at hok
      cases hcl : classifyOne x with
      | error e => rw [hcl] at hok; exact Except.noConfusion hok
      | ok tv =>
          obtain ⟨t, v⟩ := tv
          simp only [hcl] at hok
          cases hat : addRole st x t "train" with
          | error e => rw [hat] at hok; exact Except.noConfusion hok
          | ok st' =>
              simp only [hat] at hok
              cases hav : addRole sv x v "val" with
              | error e => rw [hav] at hok; exact Except.noConfusion hok
              | ok sv' =>
                  simp only [hav] at hok
                  rcases List.mem_cons.mp ha with h | h
                  · subst h; simp [isOkE, hcl]
                  · exact ih st' sv' r hok a h

theorem classifyArchives_dup :
    ∀ (archs : List (List String)) (st sv : Option (List String)),
      (∀ a ∈ archs, isOkE (classifyOne a) = true) →
      ((st ≠ none ∧ 1 ≤ archs.countP archIsTrain) ∨
        2 ≤ archs.countP archIsTrain ∨
        (sv ≠ none ∧ 1 ≤ archs.countP archIsVal) ∨
        2 ≤ archs.countP archIsVal) →
      ∃ r, classifyArchives st sv archs = .error (.duplicateRole r) := by
  intro archs
  induction archs with
  | nil =>
      intro st sv _ hcond
      simp only [List.countP_nil] at hcond
      rcases hcond with ⟨_, h⟩ | h | ⟨_, h⟩ | h <;> omega
  | cons x rest ih =>
      intro st sv hok hcond
      have hx := hok x (List.mem_cons_self _ _)
      obtain ⟨t, v, hcl⟩ : ∃ t v, classifyOne x = .ok (t, v) := by
        cases h : classifyOne x with
        | error e => rw [h] at hx; exact Bool.noConfusion hx
        | ok tv => obtain ⟨t, v⟩ := tv; exact ⟨t, v, rfl⟩
      have haT : archIsTrain x = t := by simp [archIsTrain, hcl]
      have haV : archIsVal x = v := by simp [archIsVal, hcl]
      have hT1 : (x :: rest).countP archIsTrain =
          rest.countP archIsTrain + (if t = true then 1 else 0) := by
        rw [List.countP_cons, haT]
      have hV1 : (x :: rest).countP archIsVal =
          rest.countP archIsVal + (if v = true then 1 else 0) := by
        rw [List.countP_cons, haV]
      have hokRest : ∀ a ∈ rest, isOkE (classifyOne a) = true :=
        fun a ha => hok a (List.mem_cons_of_mem _ ha)
      simp only [classifyArchives, hcl]
      by_cases ht : t = true
      · have hT2 : (x :: rest).countP archIsTrain = rest.countP archIsTrain + 1 := by
          rw [hT1, if_pos ht]
        cases hst : st with
        | some s0 => exact ⟨"train", by simp [addRole, ht]⟩
        | none =>
            by_cases hv : v = true
            · have hV2 : (x :: rest).countP archIsVal = rest.countP archIsVal + 1 := by
                rw [hV1, if_pos hv]
              cases hsv : sv with
              | some s0 => exact ⟨"val", by simp [addRole, ht, hv]⟩
              | none =>
                  obtain ⟨r, hr⟩ := ih (some x) (some x) hokRest (by
                    subst hst; subst hsv
                    rcases hcond with ⟨hne, _⟩ | h | ⟨hne, _⟩ | h
                    · exact absurd rfl hne
                    · exact Or.inl ⟨Option.some_ne_none _, by omega⟩
                    · exact absurd rfl hne
                    · exact Or.inr (Or.inr (Or.inl ⟨Option.some_ne_none _, by omega⟩)))
                  exact ⟨r, by simp [addRole, ht, hv, hr]⟩
            · have hV2 : (x :: rest).countP archIsVal = rest.countP archIsVal := by
                rw [hV1, if_neg hv, Nat.add_zero]
              obtain ⟨r, hr⟩ := ih (some x) sv hokRest (by
                subst hst
                rcases hcond with ⟨hne, _⟩ | h | ⟨hne, hcv⟩ | h
                · exact absurd rfl hne
                · exact Or.inl ⟨Option.some_ne_none _, by omega⟩
                · exact Or.inr (Or.inr (Or.inl ⟨hne, by omega⟩))
                · exact Or.inr (Or.inr (Or.inr (by omega))))
              exact ⟨r, by simp [addRole, ht, hv, hr]⟩
      · have hT2 : (x :: rest).countP archIsTrain = rest.countP archIsTrain := by
          rw [hT1, if_neg ht, Nat.add_zero]
        by_cases hv : v = true
        · have hV2 : (x :: rest).countP archIsVal = rest.countP archIsVal + 1 := by
            rw [hV1, if_pos hv]
          cases hsv : sv with
          | some s0 => exact ⟨"val", by simp [addRole, ht, hv]⟩
          | none =>
              obtain ⟨r, hr⟩ := ih st (some x) hokRest (by
                subst hsv
                rcases hcond with ⟨hne, hct⟩ | h | ⟨hne, _⟩ | h
                · exact Or.inl ⟨hne, by omega⟩
                · exact Or.inr (Or.inl (by omega))
                · exact absurd rfl hne
                · exact Or.inr (Or.inr (Or.inl ⟨Option.some_ne_none _, by omega⟩)))
              exact ⟨r, by simp [addRole, ht, hv, hr]⟩
        · have hV2 : (x :: rest).countP archIsVal = rest.countP archIsVal := by
            rw [hV1, if_neg hv, Nat.add_zero]
          obtain ⟨r, hr⟩ := ih st sv hokRest (by
            rcases hcond with ⟨hne, hct⟩ | h | ⟨hne, hcv⟩ | h
            · exact Or.inl ⟨hne, by omega⟩
            · exact Or.inr (Or.inl (by omega))
            · exact Or.inr (Or.inr (Or.inl ⟨hne, by omega⟩))
            · exact Or.inr (Or.inr (Or.inr (by omega))))
          exact ⟨r, by simp [addRole, ht, hv, hr]⟩

/-- C7 -- Archive classification errors: (i) an archive whose members all
match a pattern but that contains both a train-pattern and a
validation-pattern name classifies to a `MixedArchiveContent` error; (ii) an
archive containing a member matching neither pattern never classifies
successfully; (iii) when the archive does not contain both pattern types, the
error is `InvalidArchiveMember` reporting the first offending name; (iv)
across all supplied archives, if every archive individually classifies but
two classify as train (or two as validation), the archive loop fails with
`DuplicateArchiveRole`; (v) any archive that fails to classify makes the
whole archive loop fail — no partial recovery. -/
theorem archive_classification_errors (ns : List String)
    (archs : List (List String)) :
    ((∀ n ∈ ns, matchTrainName n = true ∨ matchValName n = true) →
      (∃ a ∈ ns, matchTrainName a = true) →
      (∃ b ∈ ns, matchValName b = true) →
      ∃ m, classifyOne ns = .error (.mixedContent m)) ∧
    ((∃ n ∈ ns, matchTrainName n = false ∧ matchValName n = false) →
      ∀ r, classifyOne ns ≠ .ok r) ∧
    (¬ ((∃ n ∈ ns, matchTrainName n = true) ∧ (∃ n ∈ ns, matchValName n = true)) →
      ∀ m, ns.find? (fun n => !(matchTrainName n || matchValName n)) = some m →
        classifyOne ns = .error (.invalidMember m)) ∧
    ((∀ a ∈ archs, isOkE (classifyOne a) = true) →
      (2 ≤ archs.countP archIsTrain ∨ 2 ≤ archs.countP archIsVal) →
      ∃ r, classifyArchives none none archs = .error (.duplicateRole r)) ∧
    (∀ a ∈ archs, isOkE (classifyOne a) = false →
      ∀ r, classifyArchives none none archs ≠ .ok r) := by
  refine ⟨?_, ?_, ?_, ?_, ?_⟩
  · intro hvalid ⟨a, ha, hta⟩ ⟨b, hb, hvb⟩
    exact processNames_mixed ns false false hvalid (fun hp => Bool.noConfusion hp.1)
      (Or.inr ⟨a, ha, hta⟩) (Or.inr ⟨b, hb, hvb⟩)
  · rintro ⟨n, hn, hTf, hVf⟩ r hok
    rcases processNames_ok_all_valid ns false false r hok n hn with h | h
    · rw [hTf] at h; exact Bool.noConfusion h
    · rw [hVf] at h; exact Bool.noConfusion h
  · intro hcond m hf
    refine processNames_invalid ns false false m ?_ hf
    rintro ⟨hA, hB⟩
    apply hcond
    constructor
    · rcases hA with h | h
      · exact Bool.noConfusion h
      · exact h
    · rcases hB with h | h
      · exact Bool.noConfusion h
      · exact h
  · intro hok hcnt
    refine classifyArchives_dup archs none none hok ?_
    rcases hcnt with h | h
    · exact Or.inr (Or.inl h)
    · exact Or.inr (Or.inr (Or.inr h))
  · intro a ha hbad r hok
    have := classifyArchives_ok_all archs none none r hok a ha
    rw [hbad] at this
    exact Bool.noConfusion this

/-- Witness for C7: a mixed archive errors with `MixedArchiveContent`; an
archive with the unmatched member `foo` errors with `InvalidArchiveMember`
reporting `foo` and never classifies; two train archives error with
`DuplicateArchiveRole`. -/
theorem archive_classification_errors_witness :
    (∃ m, classifyOne ["n00000000.tar", "ILSVRC2012_val_00000000.JPEG"] =
      .error (.mixedContent m)) ∧
    (∀ r, classifyOne ["n00000000.tar", "foo"] ≠ .ok r) ∧
    classifyOne ["n00000000.tar", "foo"] = .error (.invalidMember "foo") ∧
    (∃ r, classifyArchives none none [["n00000000.tar"], ["n00000001.tar"]] =
      .error (.duplicateRole r)) := by
  have h1 := archive_classification_errors
    ["n00000000.tar", "ILSVRC2012_val_00000000.JPEG"] []
  have h2 := archive_classification_errors ["n00000000.tar", "foo"]
    [["n00000000.tar"], ["n00000001.tar"]]
  refine ⟨?_, ?_, ?_, ?_⟩
  · exact h1.1 (by decide) ⟨"n00000000.tar", by decide, by decide⟩
      ⟨"ILSVRC2012_val_00000000.JPEG", by decide, by decide⟩
  · exact h2.2.1 ⟨"foo", by decide, by decide⟩
  · exact h2.2.2.1 (by decide) "foo" (by decide)
  · exact h2.2.2.2.1 (by decide) (Or.inl (by decide))

end CreateCache
